import Mathlib

/-!
Shallow embedding of the `rust-ga` evolutionary-algorithm engine
(`src/ea/population.rs`, `src/ea/individual.rs`) and of the two problem
representations it drives (`src/problems/tsp.rs`, `src/problems/nqueens.rs`).

Modelling conventions:
* `f64` fitness values and rates are embedded as `ℚ`; `i32`/`u32`/`usize`
  counters as `ℤ`/`ℕ` (no claim touches integer overflow).
* Panics (out-of-bounds indexing, `Option::unwrap`, `rand` range asserts)
  are embedded as `Option.none`; fallible operations return `Option`.
* The external `rand` capability is modelled as a deterministic stream of
  rationals together with a cursor.  Each draw consumes one stream element;
  `Int.fract` maps the element into `[0, 1)`, so every draw is a valid
  uniform sample by construction.  `gen_range` on an empty range and
  `gen_bool` on a rate outside `[0, 1]` fail, as documented by `rand`.
* `1.0 / fitness` under `minimize` is embedded as division in `ℚ`, where
  `1 / 0 = 0` (IEEE would give `+inf`); no claim below depends on the
  raw-fitness-zero case, which the spec itself leaves open.
-/

namespace RustGA

/-! ## RNG capability (external collaborator) -/

/-- Deterministic model of the `rand::Rng` stream: an infinite sequence of
rationals and a cursor.  `Int.fract` of the current element is the uniform
`[0,1)` sample. -/
structure Rng where
  seq : ℕ → ℚ
  idx : ℕ

/-- The current uniform sample in `[0, 1)`. -/
def Rng.u (r : Rng) : ℚ := Int.fract (r.seq r.idx)

/-- Advance the stream cursor after a draw. -/
def Rng.bump (r : Rng) : Rng := ⟨r.seq, r.idx + 1⟩

/-- `rng.gen_range(0.0..s)`: a uniform float in `[0, s)`.  `rand` rejects an
empty range, so `s ≤ 0` fails. -/
def genRangeFloat (s : ℚ) (r : Rng) : Option (ℚ × Rng) :=
  if 0 < s then some (r.u * s, r.bump) else none

/-- `rng.gen_range(lo..hi)` on `usize`: a uniform integer in `[lo, hi)`.
`rand` rejects an empty range, so `hi ≤ lo` fails. -/
def genRangeNatLH (lo hi : ℕ) (r : Rng) : Option (ℕ × Rng) :=
  if lo < hi then
    some (lo + min (Int.toNat (Int.floor (r.u * ((hi - lo : ℕ) : ℚ)))) (hi - lo - 1), r.bump)
  else none

/-- `rng.gen_range(0..n)` on `usize`. -/
def genRangeNat (n : ℕ) (r : Rng) : Option (ℕ × Rng) := genRangeNatLH 0 n r

/-- `rng.gen_bool(p)`: Bernoulli draw; `rand` panics when `p` is outside
`[0, 1]`. -/
def genBool (p : ℚ) (r : Rng) : Option (Bool × Rng) :=
  if 0 ≤ p ∧ p ≤ 1 then some (decide (r.u < p), r.bump) else none

theorem Rng.u_nonneg (r : Rng) : 0 ≤ r.u := Int.fract_nonneg _

theorem Rng.u_lt_one (r : Rng) : r.u < 1 := Int.fract_lt_one _

theorem genBool_zero (r : Rng) : genBool 0 r = some (false, r.bump) := by
  simp [genBool, decide_eq_false_iff_not, not_lt, Rng.u_nonneg]

theorem genBool_one (r : Rng) : genBool 1 r = some (true, r.bump) := by
  simp [genBool, Rng.u_lt_one r]

theorem genRangeNatLH_lt {lo hi : ℕ} {r : Rng} {v : ℕ} {r' : Rng}
    (h : genRangeNatLH lo hi r = some (v, r')) : v < hi := by
  unfold genRangeNatLH at h
  split at h
  · next hlt =>
    simp only [Option.some.injEq, Prod.mk.injEq] at h
    omega
  · simp at h

/-! ## Comparators

Rust's derived `PartialOrd` compares fields lexicographically; for totally
ordered components `partial_cmp(..).unwrap_or(Equal)` is the three-way
comparison below. -/

/-- Three-way comparison of a linear order, as produced by Rust `partial_cmp`
on `f64`/`i32` values that are not NaN. -/
def cmpLin {α : Type} [LinearOrder α] (a b : α) : Ordering :=
  if a < b then Ordering.lt else if a = b then Ordering.eq else Ordering.gt

theorem cmpLin_swap {α : Type} [LinearOrder α] (a b : α) :
    cmpLin a b = (cmpLin b a).swap := by
  unfold cmpLin
  rcases lt_trichotomy a b with h | h | h
  · simp [h, not_lt_of_lt h, h.ne', Ordering.swap]
  · simp [h, Ordering.swap]
  · simp [h, not_lt_of_lt h, h.ne', Ordering.swap]

theorem cmpLin_isLE_iff {α : Type} [LinearOrder α] {a b : α} :
    (cmpLin a b).isLE = true ↔ a ≤ b := by
  unfold cmpLin
  rcases lt_trichotomy a b with h | h | h
  · simp [h, Ordering.isLE, le_of_lt h]
  · simp [h, Ordering.isLE]
  · simp [not_lt_of_lt h, h.ne', Ordering.isLE, not_le_of_lt h]

theorem cmpLin_eq_eq_iff {α : Type} [LinearOrder α] {a b : α} :
    cmpLin a b = Ordering.eq ↔ a = b := by
  unfold cmpLin
  rcases lt_trichotomy a b with h | h | h
  · simp [h, h.ne]
  · simp [h]
  · simp [not_lt_of_lt h, h.ne']

theorem cmpLin_eq_lt_iff {α : Type} [LinearOrder α] {a b : α} :
    cmpLin a b = Ordering.lt ↔ a < b := by
  unfold cmpLin
  rcases lt_trichotomy a b with h | h | h
  · simp [h]
  · simp [h, lt_irrefl]
  · simp [not_lt_of_lt h, h.ne', not_lt_of_lt h]

/-! ## Individual (`src/ea/individual.rs`) -/

/-- `Individual<T>`: fitness, generation tag and a genotype.  Field order
matches the Rust struct, which fixes the derived lexicographic
`PartialOrd`. -/
structure Individual (G : Type) where
  fitness : ℚ
  generation : ℤ
  genotype : G
deriving DecidableEq

/-- The capability set the engine requires of a problem representation
(`Genotype`/`Phenotype` traits in `src/ea/individual.rs`), plus the
constructor used by `StandardPopulation::new` and the totalised comparison
coming from the genotype's `PartialOrd`. -/
structure GenoOps (G : Type) where
  newG : ℕ → Rng → Option (G × Rng)
  mutateG : G → Rng → Option (G × Rng)
  crossoverG : G → G → Rng → Option (G × Rng)
  fitnessG : G → Option ℚ
  cmpG : G → G → Ordering

variable {G : Type}

/-- `Individual::evaluate`: `self.fitness = self.genotype.fitness()`. -/
def Individual.evaluateI (ops : GenoOps G) (ind : Individual G) : Option (Individual G) :=
  (ops.fitnessG ind.genotype).map fun f => { ind with fitness := f }

/-- `Individual::crossover(&self, other, rng)` from `src/ea/individual.rs`:
delegates to the genotype crossover, resets fitness to the `0.0` sentinel
and sets the generation to `self.generation + 1`.  (The call site in
`src/ea/population.rs` passes `self.stats.generation` as an extra argument,
but the definition in `individual.rs` takes none.) -/
def Individual.crossoverI (ops : GenoOps G) (a other : Individual G) (r : Rng) :
    Option (Individual G × Rng) :=
  (ops.crossoverG a.genotype other.genotype r).map fun gr =>
    ({ generation := a.generation + 1, fitness := 0, genotype := gr.1 }, gr.2)

/-- Derived lexicographic `partial_cmp` on `Individual` (fitness, then
generation, then genotype), totalised as in
`a.partial_cmp(b).unwrap_or(Ordering::Equal)`. -/
def individualCmp (ops : GenoOps G) (a b : Individual G) : Ordering :=
  (cmpLin a.fitness b.fitness).then
    ((cmpLin a.generation b.generation).then (ops.cmpG a.genotype b.genotype))

/-- Lawfulness assumptions on a genotype comparison: `cmpG` is oriented
(swapping arguments swaps the ordering) and its non-`gt` fragment is
transitive.  Both hold for the repository's genotypes, whose `partial_cmp`
is a total lexicographic order on the genome vector. -/
structure LawfulCmpG (ops : GenoOps G) : Prop where
  symm : ∀ a b, ops.cmpG a b = (ops.cmpG b a).swap
  trans : ∀ a b c, (ops.cmpG a b).isLE = true → (ops.cmpG b c).isLE = true →
    (ops.cmpG a c).isLE = true

theorem Ordering.then_swap (a b : Ordering) : (a.then b).swap = a.swap.then b.swap := by
  cases a <;> cases b <;> rfl

theorem individualCmp_swap (ops : GenoOps G) (h : LawfulCmpG ops) (a b : Individual G) :
    individualCmp ops a b = (individualCmp ops b a).swap := by
  unfold individualCmp
  rw [Ordering.then_swap, Ordering.then_swap, ← cmpLin_swap, ← cmpLin_swap, ← h.symm]

theorem individualCmp_isLE_iff (ops : GenoOps G) {a b : Individual G} :
    (individualCmp ops a b).isLE = true ↔
      a.fitness < b.fitness ∨ (a.fitness = b.fitness ∧
        (a.generation < b.generation ∨ (a.generation = b.generation ∧
          (ops.cmpG a.genotype b.genotype).isLE = true))) := by
  unfold individualCmp
  rcases lt_trichotomy a.fitness b.fitness with h1 | h1 | h1
  · rw [cmpLin_eq_lt_iff.mpr h1]
    simp only [Ordering.then]
    simp [Ordering.isLE, h1]
  · rw [cmpLin_eq_eq_iff.mpr h1]
    rcases lt_trichotomy a.generation b.generation with h2 | h2 | h2
    · rw [cmpLin_eq_lt_iff.mpr h2]
      simp only [Ordering.then]
      simp [Ordering.isLE, h1, h2]
    · rw [cmpLin_eq_eq_iff.mpr h2]
      simp only [Ordering.then]
      simp [h1, h2, lt_irrefl]
    · have e2 : cmpLin a.generation b.generation = Ordering.gt := by
        unfold cmpLin
        simp [not_lt_of_lt h2, h2.ne']
      rw [e2]
      simp only [Ordering.then]
      simp [Ordering.isLE, h1, not_lt_of_lt h2, h2.ne', lt_irrefl]
  · have e1 : cmpLin a.fitness b.fitness = Ordering.gt := by
      unfold cmpLin
      simp [not_lt_of_lt h1, h1.ne']
    rw [e1]
    simp only [Ordering.then]
    simp [Ordering.isLE, not_lt_of_lt h1, h1.ne']

theorem individualCmp_isLE_trans (ops : GenoOps G) (h : LawfulCmpG ops)
    {a b c : Individual G} (hab : (individualCmp ops a b).isLE = true)
    (hbc : (individualCmp ops b c).isLE = true) :
    (individualCmp ops a c).isLE = true := by
  rw [individualCmp_isLE_iff] at hab hbc ⊢
  rcases hab with h1 | ⟨e1, hab⟩
  · rcases hbc with h2 | ⟨e2, _⟩
    · exact Or.inl (h1.trans h2)
    · exact Or.inl (e2 ▸ h1)
  · rcases hbc with h2 | ⟨e2, hbc⟩
    · exact Or.inl (e1 ▸ h2)
    · refine Or.inr ⟨e1.trans e2, ?_⟩
      rcases hab with g1 | ⟨f1, hab⟩
      · rcases hbc with g2 | ⟨f2, _⟩
        · exact Or.inl (g1.trans g2)
        · exact Or.inl (f2 ▸ g1)
      · rcases hbc with g2 | ⟨f2, hbc⟩
        · exact Or.inl (f1 ▸ g2)
        · exact Or.inr ⟨f1.trans f2, h.trans _ _ _ hab hbc⟩

theorem individualCmp_isLE_total (ops : GenoOps G) (h : LawfulCmpG ops)
    (a b : Individual G) :
    (individualCmp ops a b).isLE = true ∨ (individualCmp ops b a).isLE = true := by
  rw [individualCmp_swap ops h a b]
  cases individualCmp ops b a <;> simp [Ordering.swap, Ordering.isLE]

/-- The fitness component of the lexicographic comparison: a non-`gt`
comparison forces `fitness ≤ fitness`. -/
theorem individualCmp_isLE_fitness (ops : GenoOps G) {a b : Individual G}
    (hle : (individualCmp ops a b).isLE = true) : a.fitness ≤ b.fitness := by
  rcases (individualCmp_isLE_iff ops).mp hle with h | ⟨h, _⟩
  · exact le_of_lt h
  · exact le_of_eq h

/-! ## Population engine (`src/ea/population.rs`) -/

inductive PopulationModel | SteadyState | Generational
deriving DecidableEq

inductive ParentSelection
  | RouletteWheel | StochasticUniversalSampling | TournamentSelection | RankSelection
deriving DecidableEq

inductive SurvivorSelection | AgeBased | FitnessBased
deriving DecidableEq

/-- Run configuration (`src/opt.rs`), restricted to the fields the engine
reads.  `problem_size` is read by the genotype constructors. -/
structure Options where
  population : ℕ
  max_generations : ℕ
  target_fitness : ℚ
  mutation_rate : ℚ
  crossover_rate : ℚ
  no_elitism : Bool
  minimize : Bool
  parent_selection : ParentSelection
  survivor_selection : SurvivorSelection
  population_model : PopulationModel
  problem_size : ℕ
deriving DecidableEq

/-- `EvolutionStats` (wall-clock `elapsed` omitted: real time is not
modelled and drives no control flow besides printing). -/
structure EvolutionStats where
  generation : ℤ
  max_generations : ℕ
  fitness : ℚ
  mutations : ℤ
  total_mutations : ℤ
  crossovers : ℤ
  total_crossovers : ℤ
deriving DecidableEq

/-- `StandardPopulation<T>` (the `started`/`last_print` clock fields only
feed printing and are omitted). -/
structure StandardPopulation (G : Type) where
  options : Options
  rng : Rng
  stats : EvolutionStats
  population : List (Individual G)

/-- The accumulation walk of `roulette_wheel_select`: add each individual's
transformed fitness (raw, or `1.0 / fitness` under minimize) to `p` and
return the first index where `p >= t`; falling off the end returns `0`. -/
def rouletteAccum (minimize : Bool) (t : ℚ) :
    List (Individual G) → ℚ → ℕ → ℕ
  | [], _, _ => 0
  | ind :: rest, p, i =>
    let p' := p + (if minimize then 1 / ind.fitness else ind.fitness)
    if t ≤ p' then i else rouletteAccum minimize t rest p' (i + 1)

/-- `roulette_wheel_select`: draw `t = rng.gen_range(0.0..s)` (this fails
when `s ≤ 0`), then walk the population. -/
def roulette_wheel_select (population : List (Individual G)) (s : ℚ)
    (minimize : Bool) (r : Rng) : Option (ℕ × Rng) :=
  (genRangeFloat s r).map fun tr => (rouletteAccum minimize tr.1 population 0 0, tr.2)

/-- `mutate`: for each individual flip a `gen_bool(rate)` coin and mutate
the genotype in place, counting mutations. -/
def mutatePop (ops : GenoOps G) (rate : ℚ) :
    List (Individual G) → Rng → Option (List (Individual G) × ℤ × Rng)
  | [], r => some ([], 0, r)
  | g :: rest, r =>
    (genBool rate r).bind fun br =>
      if br.1 then
        (ops.mutateG g.genotype br.2).bind fun gr =>
          (mutatePop ops rate rest gr.2).bind fun pr =>
            some ({ g with genotype := gr.1 } :: pr.1, pr.2.1 + 1, pr.2.2)
      else
        (mutatePop ops rate rest br.2).bind fun pr =>
          some (g :: pr.1, pr.2.1, pr.2.2)

/-- `evaluate`: call `Individual::evaluate` on every element. -/
def evaluatePop (ops : GenoOps G) : List (Individual G) → Option (List (Individual G))
  | [] => some []
  | i :: rest =>
    (Individual.evaluateI ops i).bind fun i' =>
      (evaluatePop ops rest).bind fun rest' => some (i' :: rest')

/-- `sort`: `sort_by` with the (possibly reversed) totalised comparator. -/
def sortPop (ops : GenoOps G) (population : List (Individual G)) (reverse : Bool) :
    List (Individual G) :=
  if reverse then population.mergeSort fun a b => (individualCmp ops b a).isLE
  else population.mergeSort fun a b => (individualCmp ops a b).isLE

/-- The `while new_population.len() < population` body of
`select_parents` under `RouletteWheel`, counted down by the number of
individuals still needed.  Returns the pool, the crossover count and the
advanced RNG. -/
def selectParentsLoop (ops : GenoOps G) (population : List (Individual G))
    (total_fitness : ℚ) (minimize : Bool) (crossover_rate : ℚ) :
    ℕ → Rng → Option (List (Individual G) × ℤ × Rng)
  | 0, r => some ([], 0, r)
  | need + 1, r =>
    (roulette_wheel_select population total_fitness minimize r).bind fun ar =>
      (population.get? ar.1).bind fun individual_a =>
        (genBool crossover_rate ar.2).bind fun br =>
          if br.1 then
            (roulette_wheel_select population total_fitness minimize br.2).bind fun brr =>
              (population.get? brr.1).bind fun individual_b =>
                (Individual.crossoverI ops individual_a individual_b brr.2).bind fun nr =>
                  (selectParentsLoop ops population total_fitness minimize crossover_rate
                      need nr.2).bind fun pr =>
                    some (nr.1 :: pr.1, pr.2.1 + 1, pr.2.2)
          else
            (Individual.crossoverI ops individual_a individual_a br.2).bind fun nr =>
              (selectParentsLoop ops population total_fitness minimize crossover_rate
                  need nr.2).bind fun pr =>
                some (nr.1 :: pr.1, pr.2.1, pr.2.2)

/-- `StandardPopulation::select_parents`: build the candidate pool (empty
under the unimplemented non-roulette strategies), mutate it, then under
elitism drop its last element and append `self.population.remove(0)` (which
fails on an empty population).  Returns the pool together with the updated
engine state (`remove(0)` mutates the old population; the statistics record
the mutation and crossover counts). -/
def select_parents (ops : GenoOps G) (st : StandardPopulation G) (total_fitness : ℚ) :
    Option (List (Individual G) × StandardPopulation G) :=
  (match st.options.parent_selection with
    | ParentSelection.RouletteWheel =>
        selectParentsLoop ops st.population total_fitness st.options.minimize
          st.options.crossover_rate st.options.population st.rng
    | _ => some ([], 0, st.rng)).bind fun lr =>
    (mutatePop ops st.options.mutation_rate lr.1 lr.2.2).bind fun mr =>
      if st.options.no_elitism then
        some (mr.1,
          { st with rng := mr.2.2,
                    stats := { st.stats with mutations := mr.2.1,
                                             crossovers := st.stats.crossovers + lr.2.1 } })
      else
        match st.population with
        | [] => none
        | best :: restPop =>
          some (mr.1.dropLast ++ [best],
            { st with rng := mr.2.2, population := restPop,
                      stats := { st.stats with mutations := mr.2.1,
                                               crossovers := st.stats.crossovers + lr.2.1 } })

/-- `StandardPopulation::select_survivors`: Generational replaces the whole
population with the new pool; SteadyState (both survivor strategies) is an
unimplemented no-op that discards the pool. -/
def select_survivors (st : StandardPopulation G) (new_generation : List (Individual G)) :
    StandardPopulation G :=
  match st.options.population_model with
  | PopulationModel.SteadyState =>
    (match st.options.survivor_selection with
      | SurvivorSelection.FitnessBased => st
      | SurvivorSelection.AgeBased => st)
  | PopulationModel.Generational => { st with population := new_generation }

/-- `StandardPopulation::next`: one generation step (status printing and
elapsed-time bookkeeping omitted).  Fails where the Rust code would panic
(`self.population[0]` on an empty population, genotype panics, RNG range
errors). -/
def nextGen (ops : GenoOps G) (st : StandardPopulation G) : Option (StandardPopulation G) :=
  let st0 : StandardPopulation G :=
    { st with stats := { st.stats with generation := st.stats.generation + 1,
                                       mutations := 0, crossovers := 0 } }
  let total_fitness :=
    st0.population.foldl
      (fun acc i => acc + if st0.options.minimize then 1 / i.fitness else i.fitness) 0
  (select_parents ops st0 total_fitness).bind fun pr =>
    (evaluatePop ops pr.1).bind fun evaluated =>
      let sorted := sortPop ops evaluated (!pr.2.options.minimize)
      let st2 := select_survivors pr.2 sorted
      st2.population.head?.bind fun best =>
        some { st2 with stats := { st2.stats with
          fitness := best.fitness,
          total_mutations := st2.stats.total_mutations + st2.stats.mutations,
          total_crossovers := st2.stats.total_crossovers + st2.stats.crossovers } }

/-- The termination predicate of `evolve`'s loops: best fitness reached the
target (`<=` under minimize, `>=` otherwise). -/
def targetReached (options : Options) (stats : EvolutionStats) : Bool :=
  (options.minimize && decide (stats.fitness ≤ options.target_fitness)) ||
    (!options.minimize && decide (options.target_fitness ≤ stats.fitness))

/-- The `for _ in 0..max_generations` loop of `evolve`: run at most `k`
generations, breaking after any generation that reaches the target.
Returns the final state and the number of `next()` calls executed. -/
def evolveLoop (ops : GenoOps G) :
    ℕ → StandardPopulation G → Option (StandardPopulation G × ℕ)
  | 0, st => some (st, 0)
  | k + 1, st =>
    (nextGen ops st).bind fun st' =>
      if targetReached st'.options st'.stats then some (st', 1)
      else (evolveLoop ops k st').map fun p => (p.1, p.2 + 1)

/-- The `loop` of `evolve` when `max_generations == 0`: run until the
target is reached.  `fuel` bounds the observation window; exhausting it
yields `none` (the run is still going). -/
def evolveUnbounded (ops : GenoOps G) :
    ℕ → StandardPopulation G → Option (StandardPopulation G × ℕ)
  | 0, _ => none
  | fuel + 1, st =>
    (nextGen ops st).bind fun st' =>
      if targetReached st'.options st'.stats then some (st', 1)
      else (evolveUnbounded ops fuel st').map fun p => (p.1, p.2 + 1)

/-- `n`-fold iteration of `next()`. -/
def iterNext (ops : GenoOps G) : ℕ → StandardPopulation G → Option (StandardPopulation G)
  | 0, st => some st
  | n + 1, st => (nextGen ops st).bind fun st' => iterNext ops n st'

/-- The evaluate-and-sort prologue of `evolve`, before the generation
loop. -/
def evolveInit (ops : GenoOps G) (st : StandardPopulation G) :
    Option (StandardPopulation G) :=
  (evaluatePop ops st.population).map fun pop =>
    { st with population := sortPop ops pop (!st.options.minimize) }

/-- The initialisation loop of `StandardPopulation::new`: build `n` fresh
individuals with fitness `0.0` and generation `0`. -/
def newPopLoop (ops : GenoOps G) (problem_size : ℕ) :
    ℕ → Rng → Option (List (Individual G) × Rng)
  | 0, r => some ([], r)
  | n + 1, r =>
    (ops.newG problem_size r).bind fun gr =>
      (newPopLoop ops problem_size n gr.2).bind fun pr =>
        some (⟨0, 0, gr.1⟩ :: pr.1, pr.2)

/-- `StandardPopulation::new`: build `options.population` individuals and a
zeroed statistics record (only `max_generations` is copied in).  There is
no validation of `options.population`. -/
def StandardPopulation.new (ops : GenoOps G) (options : Options) (r : Rng) :
    Option (StandardPopulation G) :=
  (newPopLoop ops options.problem_size options.population r).map fun pr =>
    { options := options, rng := pr.2,
      stats := { generation := 0, max_generations := options.max_generations,
                 fitness := 0, mutations := 0, total_mutations := 0,
                 crossovers := 0, total_crossovers := 0 },
      population := pr.1 }

/-! ## Indexed swaps

`tmp = v[i]; v[i] = v[j]; v[j] = tmp` with panicking (`Option`) indexing,
and its permutation property. -/

/-- Swap two positions of a list, failing when either index is out of
bounds (Rust indexing panics). -/
def swapIdx {α : Type} (l : List α) (i j : ℕ) : Option (List α) :=
  (l.get? i).bind fun a =>
    (l.get? j).bind fun b => some ((l.set i b).set j a)

theorem cons_set_perm {α : Type} :
    ∀ {xs : List α} {m : ℕ} {b : α}, xs.get? m = some b →
      ∀ a : α, List.Perm (b :: xs.set m a) (a :: xs)
  | [], m, b, h, _ => by simp at h
  | y :: t, 0, b, h, a => by
    simp only [List.get?_cons_zero, Option.some.injEq] at h
    subst h
    simp only [List.set_cons_zero]
    exact List.Perm.swap a _ t
  | y :: t, m + 1, b, h, a => by
    simp only [List.get?_cons_succ] at h
    simp only [List.set_cons_succ]
    exact (List.Perm.swap y b (t.set m a)).trans
      (((cons_set_perm h a).cons y).trans (List.Perm.swap a y t))

theorem set_set_perm {α : Type} :
    ∀ (l : List α) (i j : ℕ) (a b : α),
      l.get? i = some a → l.get? j = some b →
      List.Perm ((l.set i b).set j a) l
  | [], _, _, _, _, ha, _ => by simp at ha
  | y :: t, 0, 0, a, b, ha, hb => by
    simp only [List.get?_cons_zero, Option.some.injEq] at ha hb
    subst ha
    subst hb
    simp only [List.set_cons_zero]
    exact List.Perm.refl _
  | y :: t, 0, m + 1, a, b, ha, hb => by
    simp only [List.get?_cons_zero, Option.some.injEq] at ha
    simp only [List.get?_cons_succ] at hb
    subst ha
    simp only [List.set_cons_zero, List.set_cons_succ]
    exact cons_set_perm hb _
  | y :: t, n + 1, 0, a, b, ha, hb => by
    simp only [List.get?_cons_succ] at ha
    simp only [List.get?_cons_zero, Option.some.injEq] at hb
    subst hb
    simp only [List.set_cons_succ, List.set_cons_zero]
    exact cons_set_perm ha _
  | y :: t, n + 1, m + 1, a, b, ha, hb => by
    simp only [List.get?_cons_succ] at ha hb
    simp only [List.set_cons_succ]
    exact (set_set_perm t n m a b ha hb).cons y

theorem swapIdx_perm {α : Type} {l l' : List α} {i j : ℕ}
    (h : swapIdx l i j = some l') : List.Perm l' l := by
  unfold swapIdx at h
  rcases Option.bind_eq_some.mp h with ⟨a, ha, h⟩
  rcases Option.bind_eq_some.mp h with ⟨b, hb, h⟩
  simp only [Option.some.injEq] at h
  subst h
  exact set_set_perm l i j a b ha hb

/-- `foldlM` over `Option` with a step that always returns a permutation
of its input yields a permutation of the initial list. -/
theorem foldlM_perm {α : Type} {f : List α → ℕ → Option (List α)}
    (hf : ∀ l i l', f l i = some l' → List.Perm l' l) :
    ∀ (idxs : List ℕ) (l l' : List α), List.foldlM f l idxs = some l' → List.Perm l' l
  | [], l, l', h => by
    simp [List.foldlM] at h
    subst h
    exact List.Perm.refl l
  | i :: rest, l, l', h => by
    simp only [List.foldlM] at h
    rcases Option.bind_eq_some.mp h with ⟨l1, h1, h2⟩
    exact (foldlM_perm hf rest l1 l' h2).trans (hf l i l1 h1)

/-! ## Traveling salesman (`src/problems/tsp.rs`) -/

/-- `TravelingSalesman`: a tour (a permutation of the city indices) and an
optional borrowed distance matrix (injected by `main` after construction). -/
structure TravelingSalesman where
  genome : List ℕ
  distances : Option (List ℚ)
deriving DecidableEq

/-- One iteration of the `shift_elements` loop: swap position `i` with
position `(i + shift) % genome.len()`. -/
def shiftStep (shift : ℕ) (genome : List ℕ) (i : ℕ) : Option (List ℕ) :=
  swapIdx genome i ((i + shift) % genome.length)

/-- `shift_elements(genome, from, to, shift)`: `panic!` when `from >= to`,
otherwise swap positions `i` and `(i + shift) % len` for
`i in (from..to).rev()`. -/
def shift_elements (genome : List ℕ) (f t shift : ℕ) : Option (List ℕ) :=
  if f ≥ t then none
  else List.foldlM (shiftStep shift) genome (List.range' f (t - f)).reverse

/-- One Fisher–Yates step of `rand`'s `SliceRandom::shuffle`:
`self.swap(i, rng.gen_range(0..=i))`. -/
def shuffleStep (acc : List ℕ × Rng) (i : ℕ) : Option (List ℕ × Rng) :=
  (genRangeNat (i + 1) acc.2).bind fun jr =>
    (swapIdx acc.1 i jr.1).map fun l' => (l', jr.2)

/-- `rand`'s `SliceRandom::shuffle`: Fisher–Yates over `i in (1..len).rev()`. -/
def shuffle (l : List ℕ) (r : Rng) : Option (List ℕ × Rng) :=
  List.foldlM shuffleStep (l, r) (List.range' 1 (l.length - 1)).reverse

/-- `create_random_path`: `0..length` collected then shuffled. -/
def create_random_path (length : ℕ) (r : Rng) : Option (List ℕ × Rng) :=
  shuffle (List.range length) r

/-- The `while a == b { b = rng.gen_range(0..length) }` re-draw loop of the
swap branch of `TravelingSalesman::mutate` (first draw included), bounded
by `fuel` re-draws; `none` models the loop still spinning. -/
def drawNeLoop (length a : ℕ) : ℕ → Rng → Option (ℕ × Rng)
  | 0, _ => none
  | fuel + 1, r =>
    (genRangeNat length r).bind fun br =>
      if br.1 = a then drawNeLoop length a fuel br.2 else some br

/-- `TravelingSalesman::mutate`: 50% a city randomisation (80% swap two
distinct cities, 20% fresh random path), 50% a subgroup shift.
`genome.len() - 2` is `usize` arithmetic in Rust; for `len < 2` the
subtraction underflows and the subsequent range draws panic, modelled here
(via truncated subtraction) as a failing empty-range draw. -/
def TravelingSalesman.mutate (fuel : ℕ) (g : TravelingSalesman) (r : Rng) :
    Option (TravelingSalesman × Rng) :=
  let length := g.genome.length
  (genBool (1 / 2) r).bind fun b1 =>
    if b1.1 then
      (genBool (8 / 10) b1.2).bind fun b2 =>
        if b2.1 then
          (genRangeNat length b2.2).bind fun ar =>
            (drawNeLoop length ar.1 fuel ar.2).bind fun br =>
              (swapIdx g.genome ar.1 br.1).map fun genome' =>
                ({ g with genome := genome' }, br.2)
        else
          (create_random_path length b2.2).map fun pr =>
            ({ g with genome := pr.1 }, pr.2)
    else
      (genRangeNat (length - 2) b1.2).bind fun fr =>
        (genRangeNatLH (fr.1 + 1) length fr.2).bind fun tr =>
          (genRangeNat length tr.2).bind fun sr =>
            (shift_elements g.genome fr.1 tr.1 sr.1).map fun genome' =>
              ({ g with genome := genome' }, sr.2)

/-- `v[i] = x` on a `Vec`: panics when `i` is out of bounds.  In particular
every write into a `Vec::with_capacity(..)` vector (length `0`) fails. -/
def vecSet (l : List ℕ) (i v : ℕ) : Option (List ℕ) :=
  if i < l.length then some (l.set i v) else none

/-- `for i in lo..hi { dst[i] = src[i] }` with panicking indexing. -/
def copyRange (src dst : List ℕ) (lo hi : ℕ) : Option (List ℕ) :=
  List.foldlM (fun d i => (src.get? i).bind fun v => vecSet d i v) dst
    (List.range' lo (hi - lo))

/-- `TravelingSalesman::crossover`: clone the other genome, draw an index,
copy `self`'s prefix below the index over it. -/
def TravelingSalesman.crossover (a other : TravelingSalesman) (r : Rng) :
    Option (TravelingSalesman × Rng) :=
  (genRangeNat a.genome.length r).bind fun ir =>
    (copyRange a.genome other.genome 0 ir.1).map fun genome =>
      ({ genome := genome, distances := a.distances }, ir.2)

/-- `TravelingSalesman::fitness`: `distances.unwrap()` (panics when the
matrix was never injected), then sum `distances[y * len + x]` over
consecutive tour positions, wrapping at the end. -/
def TravelingSalesman.fitness (g : TravelingSalesman) : Option ℚ :=
  g.distances.bind fun distances =>
    List.foldlM
      (fun acc i =>
        (g.genome.get? i).bind fun x =>
          (g.genome.get? ((i + 1) % g.genome.length)).bind fun y =>
            (distances.get? (y * g.genome.length + x)).map fun d => acc + d)
      (0 : ℚ) (List.range g.genome.length)

/-- `Vec::cmp`: lexicographic comparison, shorter prefix first; this is
`TravelingSalesman::partial_cmp` (always `Some`). -/
def cmpListNat : List ℕ → List ℕ → Ordering
  | [], [] => Ordering.eq
  | [], _ :: _ => Ordering.lt
  | _ :: _, [] => Ordering.gt
  | a :: ta, b :: tb => (cmpLin a b).then (cmpListNat ta tb)

/-- The genotype capability set of the traveling-salesman representation.
The re-draw loop inside `mutate` (unbounded in Rust) is observed through a
fixed fuel bound of `9` re-draws, enough for every concrete run below;
`C10_mutate_preserves_permutation` quantifies over every bound. -/
def tspOps : GenoOps TravelingSalesman where
  newG := fun problem_size r =>
    (create_random_path problem_size r).map fun pr =>
      ({ genome := pr.1, distances := none }, pr.2)
  mutateG := fun g r => TravelingSalesman.mutate 9 g r
  crossoverG := TravelingSalesman.crossover
  fitnessG := TravelingSalesman.fitness
  cmpG := fun a b => cmpListNat a.genome b.genome

/-! ## N-queens (`src/problems/nqueens.rs`), the parts claim C4 cites -/

/-- `factorial`: `(1..=n).fold(1, |acc, v| acc * v)`. -/
def factorialFold (n : ℕ) : ℕ := (List.range' 1 n).foldl (fun acc v => acc * v) 1

/-- `max_clashes`: `n! / (2 * (n-2)!)` (truncated subtraction; the Rust
`u64` subtraction would underflow for `n < 2`, a case no claim exercises). -/
def maxClashes (n : ℕ) : ℕ := factorialFold n / (2 * factorialFold (n - 2))

structure NQueens where
  genome : List ℕ
  max_clashes : ℕ
  problem_size : ℕ
deriving DecidableEq

/-- `NQueens::crossover`: `let mut genome = Vec::with_capacity(..)` gives a
length-`0` vector, after which every `genome[i] = ..` write is
out-of-bounds. -/
def NQueens.crossover (a other : NQueens) (r : Rng) : Option (NQueens × Rng) :=
  (genRangeNat a.problem_size r).bind fun ir =>
    (copyRange a.genome [] 0 ir.1).bind fun g1 =>
      (copyRange other.genome g1 ir.1 a.problem_size).map fun g2 =>
        ({ genome := g2, max_clashes := maxClashes a.problem_size,
           problem_size := a.problem_size }, ir.2)

/-! ## Comparator lawfulness for the TSP genotype -/

theorem then_isLE_iff {α : Type} [LinearOrder α] (a b : α) (o : Ordering) :
    ((cmpLin a b).then o).isLE = true ↔ a < b ∨ (a = b ∧ o.isLE = true) := by
  rcases lt_trichotomy a b with h | h | h
  · rw [cmpLin_eq_lt_iff.mpr h]
    simp only [Ordering.then]
    simp [Ordering.isLE, h]
  · rw [cmpLin_eq_eq_iff.mpr h]
    simp only [Ordering.then]
    simp [h, lt_irrefl]
  · have e : cmpLin a b = Ordering.gt := by
      unfold cmpLin
      simp [not_lt_of_lt h, h.ne']
    rw [e]
    simp only [Ordering.then]
    simp [Ordering.isLE, not_lt_of_lt h, h.ne']

theorem cmpListNat_swap : ∀ x y : List ℕ, cmpListNat x y = (cmpListNat y x).swap
  | [], [] => rfl
  | [], _ :: _ => rfl
  | _ :: _, [] => rfl
  | a :: ta, b :: tb => by
    simp only [cmpListNat]
    rw [Ordering.then_swap, ← cmpLin_swap, ← cmpListNat_swap ta tb]

theorem cmpListNat_isLE_trans : ∀ x y z : List ℕ,
    (cmpListNat x y).isLE = true → (cmpListNat y z).isLE = true →
    (cmpListNat x z).isLE = true
  | [], _, z, _, _ => by cases z <;> simp [cmpListNat, Ordering.isLE]
  | _ :: _, [], _, hxy, _ => by simp [cmpListNat, Ordering.isLE] at hxy
  | _ :: _, _ :: _, [], _, hyz => by simp [cmpListNat, Ordering.isLE] at hyz
  | a :: ta, b :: tb, c :: tc, hxy, hyz => by
    simp only [cmpListNat] at hxy hyz ⊢
    rw [then_isLE_iff] at hxy hyz ⊢
    rcases hxy with h1 | ⟨e1, h1⟩
    · rcases hyz with h2 | ⟨e2, _⟩
      · exact Or.inl (h1.trans h2)
      · exact Or.inl (e2 ▸ h1)
    · rcases hyz with h2 | ⟨e2, h2⟩
      · exact Or.inl (e1 ▸ h2)
      · exact Or.inr ⟨e1.trans e2, cmpListNat_isLE_trans ta tb tc h1 h2⟩

theorem tspOps_lawful : LawfulCmpG tspOps :=
  ⟨fun a b => cmpListNat_swap a.genome b.genome,
   fun a b c => cmpListNat_isLE_trans a.genome b.genome c.genome⟩

/-! ## Sortedness of `sort` -/

/-- The spec's better-or-equal: under minimize smaller fitness is better,
otherwise larger. -/
def better_or_equal {G : Type} (minimize : Bool) (a b : Individual G) : Prop :=
  if minimize then a.fitness ≤ b.fitness else b.fitness ≤ a.fitness

instance (minimize : Bool) (a b : Individual G) :
    Decidable (better_or_equal minimize a b) := by
  unfold better_or_equal
  infer_instance

theorem sortPop_pairwise_rev (ops : GenoOps G) (h : LawfulCmpG ops)
    (pop : List (Individual G)) :
    (sortPop ops pop true).Pairwise fun a b => (individualCmp ops b a).isLE = true := by
  unfold sortPop
  rw [if_pos rfl]
  exact @List.sorted_mergeSort (Individual G)
    (fun a b => (individualCmp ops b a).isLE)
    (fun a b c hab hbc => individualCmp_isLE_trans ops h hbc hab)
    (fun a b => by
      simp only [Bool.or_eq_true]
      exact individualCmp_isLE_total ops h b a)
    pop

theorem sortPop_pairwise_fwd (ops : GenoOps G) (h : LawfulCmpG ops)
    (pop : List (Individual G)) :
    (sortPop ops pop false).Pairwise fun a b => (individualCmp ops a b).isLE = true := by
  unfold sortPop
  rw [if_neg Bool.false_ne_true]
  exact @List.sorted_mergeSort (Individual G)
    (fun a b => (individualCmp ops a b).isLE)
    (fun a b c hab hbc => individualCmp_isLE_trans ops h hab hbc)
    (fun a b => by
      simp only [Bool.or_eq_true]
      exact individualCmp_isLE_total ops h a b)
    pop

/-- After `sort(pop, !minimize)` adjacent-dominating order holds in the
better-or-equal sense of the configured direction. -/
theorem sortPop_pairwise_better (ops : GenoOps G) (h : LawfulCmpG ops)
    (pop : List (Individual G)) (minimize : Bool) :
    (sortPop ops pop (!minimize)).Pairwise (better_or_equal minimize) := by
  cases minimize with
  | false =>
    exact (sortPop_pairwise_rev ops h pop).imp fun hab => by
      simpa [better_or_equal] using individualCmp_isLE_fitness ops hab
  | true =>
    exact (sortPop_pairwise_fwd ops h pop).imp fun hab => by
      simpa [better_or_equal] using individualCmp_isLE_fitness ops hab

/-- The sorted pool is a permutation of its input. -/
theorem sortPop_perm (ops : GenoOps G) (pop : List (Individual G)) (reverse : Bool) :
    List.Perm (sortPop ops pop reverse) pop := by
  unfold sortPop
  cases reverse <;> simp [List.mergeSort_perm]

/-! ## Counting lemmas for mutation and parent selection -/

theorem mutatePop_zero (ops : GenoOps G) :
    ∀ (l : List (Individual G)) (r : Rng), ∃ r', mutatePop ops 0 l r = some (l, 0, r')
  | [], r => ⟨r, rfl⟩
  | g :: rest, r => by
    obtain ⟨r', hr⟩ := mutatePop_zero ops rest r.bump
    refine ⟨r', ?_⟩
    simp [mutatePop, genBool_zero, hr]

theorem mutatePop_one_count (ops : GenoOps G) :
    ∀ (l : List (Individual G)) (r : Rng) (p : List (Individual G) × ℤ × Rng),
      mutatePop ops 1 l r = some p → p.2.1 = l.length
  | [], r, p, h => by
    simp [mutatePop] at h
    simp [← h]
  | g :: rest, r, p, h => by
    rw [mutatePop, genBool_one] at h
    simp only [Option.some_bind, if_pos] at h
    rcases Option.bind_eq_some.mp h with ⟨gr, hg, h⟩
    rcases Option.bind_eq_some.mp h with ⟨pr, hp, h⟩
    simp only [Option.some.injEq] at h
    have := mutatePop_one_count ops rest gr.2 pr hp
    subst h
    simp [this]

theorem selectParentsLoop_length (ops : GenoOps G) (pop : List (Individual G))
    (tf : ℚ) (minimize : Bool) (cr : ℚ) :
    ∀ (need : ℕ) (r : Rng) (p : List (Individual G) × ℤ × Rng),
      selectParentsLoop ops pop tf minimize cr need r = some p → p.1.length = need
  | 0, r, p, h => by
    simp [selectParentsLoop] at h
    simp [← h]
  | need + 1, r, p, h => by
    rw [selectParentsLoop] at h
    rcases Option.bind_eq_some.mp h with ⟨ar, _, h⟩
    rcases Option.bind_eq_some.mp h with ⟨ia, _, h⟩
    rcases Option.bind_eq_some.mp h with ⟨br, _, h⟩
    by_cases hbr : br.1 = true
    · rw [if_pos hbr] at h
      rcases Option.bind_eq_some.mp h with ⟨brr, _, h⟩
      rcases Option.bind_eq_some.mp h with ⟨ib, _, h⟩
      rcases Option.bind_eq_some.mp h with ⟨nr, _, h⟩
      rcases Option.bind_eq_some.mp h with ⟨pr, hp, h⟩
      simp only [Option.some.injEq] at h
      have := selectParentsLoop_length ops pop tf minimize cr need nr.2 pr hp
      subst h
      simp [this]
    · rw [if_neg hbr] at h
      rcases Option.bind_eq_some.mp h with ⟨nr, _, h⟩
      rcases Option.bind_eq_some.mp h with ⟨pr, hp, h⟩
      simp only [Option.some.injEq] at h
      have := selectParentsLoop_length ops pop tf minimize cr need nr.2 pr hp
      subst h
      simp [this]

/-! ## Evaluation lemmas -/

theorem evaluateI_some (ops : GenoOps G) {i i' : Individual G}
    (h : Individual.evaluateI ops i = some i') :
    i'.genotype = i.genotype ∧ ops.fitnessG i'.genotype = some i'.fitness := by
  unfold Individual.evaluateI at h
  rcases Option.map_eq_some'.mp h with ⟨f, hf, h⟩
  subst h
  exact ⟨rfl, hf⟩

theorem evaluatePop_genotypes (ops : GenoOps G) :
    ∀ (l l' : List (Individual G)), evaluatePop ops l = some l' →
      l'.map Individual.genotype = l.map Individual.genotype ∧
      ∀ y ∈ l', ops.fitnessG y.genotype = some y.fitness
  | [], l', h => by
    simp [evaluatePop] at h
    subst h
    simp
  | i :: rest, l', h => by
    rw [evaluatePop] at h
    rcases Option.bind_eq_some.mp h with ⟨i', hi, h⟩
    rcases Option.bind_eq_some.mp h with ⟨rest', hrest, h⟩
    simp only [Option.some.injEq] at h
    subst h
    obtain ⟨hg, hf⟩ := evaluateI_some ops hi
    obtain ⟨hmap, hall⟩ := evaluatePop_genotypes ops rest rest' hrest
    refine ⟨by simp [hg, hmap], ?_⟩
    intro y hy
    rcases List.mem_cons.mp hy with hy | hy
    · subst hy
      exact hf
    · exact hall y hy

/-! ## Permutation preservation of the TSP mutation operators -/

theorem shuffleStep_perm {p res : List ℕ × Rng} {i : ℕ}
    (h : shuffleStep p i = some res) : List.Perm res.1 p.1 := by
  unfold shuffleStep at h
  rcases Option.bind_eq_some.mp h with ⟨jr, _, h⟩
  rcases Option.map_eq_some'.mp h with ⟨l', hl, h⟩
  subst h
  exact swapIdx_perm hl

theorem shuffle_fold_perm :
    ∀ (idxs : List ℕ) (p res : List ℕ × Rng),
      List.foldlM shuffleStep p idxs = some res → List.Perm res.1 p.1
  | [], p, res, h => by
    simp [List.foldlM] at h
    subst h
    exact List.Perm.refl _
  | i :: rest, p, res, h => by
    simp only [List.foldlM] at h
    rcases Option.bind_eq_some.mp h with ⟨q, hq, h⟩
    exact (shuffle_fold_perm rest q res h).trans (shuffleStep_perm hq)

theorem shuffle_perm {l : List ℕ} {r : Rng} {res : List ℕ × Rng}
    (h : shuffle l r = some res) : List.Perm res.1 l :=
  shuffle_fold_perm _ (l, r) res h

theorem create_random_path_perm {length : ℕ} {r : Rng} {res : List ℕ × Rng}
    (h : create_random_path length r = some res) :
    List.Perm res.1 (List.range length) :=
  shuffle_perm h

theorem shift_elements_perm {genome : List ℕ} {f t shift : ℕ} {res : List ℕ}
    (h : shift_elements genome f t shift = some res) : List.Perm res genome := by
  unfold shift_elements at h
  split at h
  · simp at h
  · exact foldlM_perm (fun l i l' hl => swapIdx_perm hl) _ genome res h

/-- Every branch of `TravelingSalesman::mutate` preserves the multiset of
genome elements being exactly `{0, .., len-1}`: the swap branch and
`shift_elements` only exchange existing positions, and the fresh-path
branch rebuilds a permutation of `0..len` outright. -/
theorem tsp_mutate_perm (fuel : ℕ) (g g' : TravelingSalesman) (r r' : Rng)
    (hperm : List.Perm g.genome (List.range g.genome.length))
    (h : TravelingSalesman.mutate fuel g r = some (g', r')) :
    List.Perm g'.genome (List.range g.genome.length) := by
  unfold TravelingSalesman.mutate at h
  rcases Option.bind_eq_some.mp h with ⟨b1, _, h⟩
  by_cases hb1 : b1.1 = true
  · rw [if_pos hb1] at h
    rcases Option.bind_eq_some.mp h with ⟨b2, _, h⟩
    by_cases hb2 : b2.1 = true
    · rw [if_pos hb2] at h
      rcases Option.bind_eq_some.mp h with ⟨ar, _, h⟩
      rcases Option.bind_eq_some.mp h with ⟨br, _, h⟩
      rcases Option.map_eq_some'.mp h with ⟨genome', hg, h⟩
      have hgg : g'.genome = genome' := by
        simpa using (congrArg (fun p => p.1.genome) h).symm
      rw [hgg]
      exact (swapIdx_perm hg).trans hperm
    · rw [if_neg hb2] at h
      rcases Option.map_eq_some'.mp h with ⟨pr, hg, h⟩
      have hgg : g'.genome = pr.1 := by
        simpa using (congrArg (fun p => p.1.genome) h).symm
      rw [hgg]
      exact create_random_path_perm hg
  · rw [if_neg hb1] at h
    rcases Option.bind_eq_some.mp h with ⟨fr, _, h⟩
    rcases Option.bind_eq_some.mp h with ⟨tr, _, h⟩
    rcases Option.bind_eq_some.mp h with ⟨sr, _, h⟩
    rcases Option.map_eq_some'.mp h with ⟨genome', hg, h⟩
    have hgg : g'.genome = genome' := by
      simpa using (congrArg (fun p => p.1.genome) h).symm
    rw [hgg]
    exact (shift_elements_perm hg).trans hperm

/-! ## Frame and bookkeeping lemmas for the generation step -/

theorem select_survivors_stats (st : StandardPopulation G) (ng : List (Individual G)) :
    (select_survivors st ng).stats = st.stats ∧
    (select_survivors st ng).options = st.options := by
  unfold select_survivors
  cases hm : st.options.population_model
  · cases hs : st.options.survivor_selection <;> exact ⟨rfl, rfl⟩
  · exact ⟨rfl, rfl⟩

/-- What `select_parents` records: the mutation count written into the
statistics is the count returned by `mutate` over the freshly built pool. -/
theorem select_parents_mutations (ops : GenoOps G) (st : StandardPopulation G)
    (tf : ℚ) (pool : List (Individual G)) (st1 : StandardPopulation G)
    (h : select_parents ops st tf = some (pool, st1)) :
    st1.options = st.options ∧
    ∃ lr mr : List (Individual G) × ℤ × Rng,
      (match st.options.parent_selection with
        | ParentSelection.RouletteWheel =>
            selectParentsLoop ops st.population tf st.options.minimize
              st.options.crossover_rate st.options.population st.rng
        | _ => some ([], 0, st.rng)) = some lr ∧
      mutatePop ops st.options.mutation_rate lr.1 lr.2.2 = some mr ∧
      st1.stats.mutations = mr.2.1 := by
  unfold select_parents at h
  rcases Option.bind_eq_some.mp h with ⟨lr, hlr, h⟩
  rcases Option.bind_eq_some.mp h with ⟨mr, hmr, h⟩
  by_cases he : st.options.no_elitism = true
  · rw [if_pos he] at h
    simp only [Option.some.injEq, Prod.mk.injEq] at h
    refine ⟨?_, lr, mr, hlr, hmr, ?_⟩ <;> rw [← h.2]
  · rw [if_neg he] at h
    cases hpop : st.population with
    | nil =>
      rw [hpop] at h
      simp at h
    | cons best restPop =>
      rw [hpop] at h hlr
      simp only [Option.some.injEq, Prod.mk.injEq] at h
      refine ⟨?_, lr, mr, hlr, hmr, ?_⟩ <;> rw [← h.2]

/-- What `select_parents` returns under elitism: the pool is the mutated
pool with its last element replaced by the head of the previous population,
and the previous population has lost its head. -/
theorem select_parents_elitism (ops : GenoOps G) (st : StandardPopulation G)
    (tf : ℚ) (pool : List (Individual G)) (st1 : StandardPopulation G)
    (b0 : Individual G) (rest : List (Individual G))
    (hpop : st.population = b0 :: rest)
    (helit : st.options.no_elitism = false)
    (h : select_parents ops st tf = some (pool, st1)) :
    st1.options = st.options ∧
    ∃ mutated : List (Individual G), pool = mutated.dropLast ++ [b0] := by
  unfold select_parents at h
  rcases Option.bind_eq_some.mp h with ⟨lr, _, h⟩
  rcases Option.bind_eq_some.mp h with ⟨mr, _, h⟩
  rw [if_neg (by simp [helit]), hpop] at h
  simp only [Option.some.injEq, Prod.mk.injEq] at h
  refine ⟨by rw [← h.2], mr.1, by rw [← h.1]⟩

/-- Unfolding of one iteration of `n`-fold `next()`. -/
theorem iterNext_succ (ops : GenoOps G) (n : ℕ) (st : StandardPopulation G) :
    iterNext ops (n + 1) st = (nextGen ops st).bind (iterNext ops n) := rfl

/-- Characterisation of the bounded `for _ in 0..max_generations` loop:
at most `k` generations run; the returned count reproduces the final
state via iterated `next()`; an early exit happens exactly on reaching the
target (no earlier generation had reached it). -/
theorem evolveLoop_spec (ops : GenoOps G) :
    ∀ (k : ℕ) (st st' : StandardPopulation G) (n : ℕ),
      evolveLoop ops k st = some (st', n) →
      n ≤ k ∧ iterNext ops n st = some st' ∧
      (n < k → targetReached st'.options st'.stats = true) ∧
      ∀ m stm, 0 < m → m < n → iterNext ops m st = some stm →
        targetReached stm.options stm.stats = false
  | 0, st, st', n, h => by
    simp only [evolveLoop, Option.some.injEq, Prod.mk.injEq] at h
    obtain ⟨h1, h2⟩ := h
    subst h1
    subst h2
    exact ⟨Nat.le_refl 0, rfl, by omega, by omega⟩
  | k + 1, st, st', n, h => by
    rw [evolveLoop] at h
    rcases Option.bind_eq_some.mp h with ⟨st1, h1, h⟩
    by_cases ht : targetReached st1.options st1.stats = true
    · rw [if_pos ht] at h
      simp only [Option.some.injEq, Prod.mk.injEq] at h
      obtain ⟨hst, hn⟩ := h
      subst hst
      subst hn
      refine ⟨by omega, ?_, fun _ => ht, by omega⟩
      rw [iterNext_succ, h1]
      rfl
    · rw [if_neg ht] at h
      rcases Option.map_eq_some'.mp h with ⟨p, hp, h⟩
      obtain ⟨hn_le, hiter, htarget, hprev⟩ := evolveLoop_spec ops k st1 p.1 p.2 hp
      simp only [Prod.mk.injEq] at h
      obtain ⟨hst, hn⟩ := h
      subst hst
      subst hn
      refine ⟨by omega, ?_, fun hlt => htarget (by omega), ?_⟩
      · rw [iterNext_succ, h1]
        exact hiter
      · intro m stm hm0 hmn hit
        cases m with
        | zero => omega
        | succ m0 =>
          rw [iterNext_succ, h1] at hit
          cases m0 with
          | zero =>
            simp only [iterNext, Option.some_bind] at hit
            simp only [Option.some.injEq] at hit
            subst hit
            exact Bool.not_eq_true _ ▸ eq_false_of_ne_true ht
          | succ m1 =>
            exact hprev (m1 + 1) stm (by omega) (by omega) hit

/-- Characterisation of the unbounded `loop` (`max_generations == 0`),
observed through `fuel` iterations: when the loop exits it does so at the
first generation whose best fitness reaches the target. -/
theorem evolveUnbounded_spec (ops : GenoOps G) :
    ∀ (fuel : ℕ) (st st' : StandardPopulation G) (n : ℕ),
      evolveUnbounded ops fuel st = some (st', n) →
      iterNext ops n st = some st' ∧
      targetReached st'.options st'.stats = true ∧
      ∀ m stm, 0 < m → m < n → iterNext ops m st = some stm →
        targetReached stm.options stm.stats = false
  | 0, st, st', n, h => by
    simp [evolveUnbounded] at h
  | fuel + 1, st, st', n, h => by
    rw [evolveUnbounded] at h
    rcases Option.bind_eq_some.mp h with ⟨st1, h1, h⟩
    by_cases ht : targetReached st1.options st1.stats = true
    · rw [if_pos ht] at h
      simp only [Option.some.injEq, Prod.mk.injEq] at h
      obtain ⟨hst, hn⟩ := h
      subst hst
      subst hn
      refine ⟨?_, ht, by omega⟩
      rw [iterNext_succ, h1]
      rfl
    · rw [if_neg ht] at h
      rcases Option.map_eq_some'.mp h with ⟨p, hp, h⟩
      obtain ⟨hiter, htarget, hprev⟩ := evolveUnbounded_spec ops fuel st1 p.1 p.2 hp
      simp only [Prod.mk.injEq] at h
      obtain ⟨hst, hn⟩ := h
      subst hst
      subst hn
      refine ⟨?_, htarget, ?_⟩
      · rw [iterNext_succ, h1]
        exact hiter
      · intro m stm hm0 hmn hit
        cases m with
        | zero => omega
        | succ m0 =>
          rw [iterNext_succ, h1] at hit
          cases m0 with
          | zero =>
            simp only [iterNext, Option.some_bind] at hit
            simp only [Option.some.injEq] at hit
            subst hit
            exact Bool.not_eq_true _ ▸ eq_false_of_ne_true ht
          | succ m1 =>
            exact hprev (m1 + 1) stm (by omega) (by omega) hit

/-- The statistics reset at the top of `next()` (generation incremented,
per-generation counters cleared). -/
def bumpStats (st : StandardPopulation G) : StandardPopulation G :=
  { st with stats := { st.stats with generation := st.stats.generation + 1,
                                     mutations := 0, crossovers := 0 } }

/-- The transformed total fitness computed at the top of `next()`. -/
def totalFitness (st : StandardPopulation G) : ℚ :=
  st.population.foldl
    (fun acc i => acc + if st.options.minimize then 1 / i.fitness else i.fitness) 0

theorem bumpStats_options (st : StandardPopulation G) : (bumpStats st).options = st.options := rfl

theorem bumpStats_population (st : StandardPopulation G) :
    (bumpStats st).population = st.population := rfl

/-- Destructuring of one successful generation step: the parent pool, its
evaluation, the sorted pool handed to survivor selection, and how the final
state's statistics and population are assembled. -/
theorem nextGen_spec (ops : GenoOps G) (st st' : StandardPopulation G)
    (h : nextGen ops st = some st') :
    ∃ (pr : List (Individual G) × StandardPopulation G)
      (ev : List (Individual G)) (best : Individual G),
      select_parents ops (bumpStats st) (totalFitness st) = some pr ∧
      evaluatePop ops pr.1 = some ev ∧
      (select_survivors pr.2 (sortPop ops ev (!pr.2.options.minimize))).population.head?
        = some best ∧
      st'.stats.fitness = best.fitness ∧
      st'.stats.mutations = pr.2.stats.mutations ∧
      st'.population
        = (select_survivors pr.2 (sortPop ops ev (!pr.2.options.minimize))).population ∧
      st'.options = pr.2.options := by
  unfold nextGen at h
  rcases Option.bind_eq_some.mp h with ⟨pr, hsel, h⟩
  rcases Option.bind_eq_some.mp h with ⟨ev, hev, h⟩
  rcases Option.bind_eq_some.mp h with ⟨best, hbest, h⟩
  have hst := Option.some.inj h
  refine ⟨pr, ev, best, hsel, hev, hbest, ?_, ?_, ?_, ?_⟩
  · rw [← hst]
  · rw [← hst]
    show (select_survivors pr.2 (sortPop ops ev (!pr.2.options.minimize))).stats.mutations
        = pr.2.stats.mutations
    exact congrArg EvolutionStats.mutations (select_survivors_stats pr.2 _).1
  · rw [← hst]
  · rw [← hst]
    show (select_survivors pr.2 (sortPop ops ev (!pr.2.options.minimize))).options
        = pr.2.options
    exact (select_survivors_stats pr.2 _).2

/-- C7 (amended): through one generation step, mutation rate `0.0` yields
a recorded mutation count of zero for every configuration, and mutation
rate `1.0` under the roulette-wheel parent-selection strategy yields a
count equal to the configured population size.  (Under the unimplemented
placeholder strategies the pool is empty and the count is 0, see the
counterexample.) -/
theorem nextGen_mutation_extremes (ops : GenoOps G) (st st' : StandardPopulation G)
    (h : nextGen ops st = some st') :
    (st.options.mutation_rate = 0 → st'.stats.mutations = 0) ∧
    (st.options.mutation_rate = 1 →
      st.options.parent_selection = ParentSelection.RouletteWheel →
      st'.stats.mutations = (st.options.population : ℤ)) := by
  obtain ⟨pr, ev, best, hsel, hev, hbest, hfit, hmut, hpop', hopts⟩ := nextGen_spec ops st st' h
  obtain ⟨hopts1, lr, mr, hlr, hmr, hm⟩ :=
    select_parents_mutations ops (bumpStats st) (totalFitness st) pr.1 pr.2
      (show _ = some (pr.1, pr.2) from hsel)
  rw [bumpStats_options] at hmr hlr
  constructor
  · intro h0
    rw [h0] at hmr
    obtain ⟨r', hz⟩ := mutatePop_zero ops lr.1 lr.2.2
    have hmr0 : mr = (lr.1, 0, r') := (Option.some.inj (hz.symm.trans hmr)).symm
    rw [hmut, hm, hmr0]
  · intro h1 hrw
    rw [hrw] at hlr
    rw [bumpStats_population] at hlr
    have hlen : lr.1.length = st.options.population :=
      selectParentsLoop_length ops _ _ _ _ _ _ _ hlr
    rw [h1] at hmr
    have hcount : mr.2.1 = lr.1.length := mutatePop_one_count ops lr.1 lr.2.2 mr hmr
    rw [hmut, hm, hcount, hlen]

/-- Reflexivity of `better_or_equal`. -/
theorem better_or_equal_refl (minimize : Bool) (a : Individual G) :
    better_or_equal minimize a a := by
  unfold better_or_equal
  cases minimize <;> simp

/-- C3 (amended): with elitism enabled, under the Generational population
model, after one full generation step the best individual's fitness in
the new population is `>=` (maximizing) or `<=` (minimizing) the fitness
of the head of the previous (evaluated, best-first sorted) population —
the best-known fitness never regresses.  (Under SteadyState it does
regress, see the counterexample.) -/
theorem nextGen_elitism_no_regress (ops : GenoOps G) (hlaw : LawfulCmpG ops)
    (st st' : StandardPopulation G) (b0 : Individual G) (rest : List (Individual G))
    (hpop : st.population = b0 :: rest)
    (hmodel : st.options.population_model = PopulationModel.Generational)
    (helit : st.options.no_elitism = false)
    (heval : ops.fitnessG b0.genotype = some b0.fitness)
    (hbest : ∀ i ∈ st.population, better_or_equal st.options.minimize b0 i)
    (hnext : nextGen ops st = some st') :
    (st.options.minimize = true → st'.stats.fitness ≤ b0.fitness) ∧
    (st.options.minimize = false → b0.fitness ≤ st'.stats.fitness) := by
  obtain ⟨pr, ev, best, hsel, hev, hbest', hfit, hmut, hpop', hopts⟩ := nextGen_spec ops st st' hnext
  obtain ⟨hopts1, mutated, hpool⟩ :=
    select_parents_elitism ops (bumpStats st) (totalFitness st) pr.1 pr.2 b0 rest
      (show (bumpStats st).population = b0 :: rest from hpop)
      (show (bumpStats st).options.no_elitism = false from helit)
      (show _ = some (pr.1, pr.2) from hsel)
  have hopts0 : pr.2.options = st.options := hopts1
  have hb0mem : b0 ∈ pr.1 := by
    rw [hpool]
    exact List.mem_append_right _ (List.mem_singleton_self b0)
  obtain ⟨hmap, hall⟩ := evaluatePop_genotypes ops pr.1 ev hev
  have hgmem : b0.genotype ∈ ev.map Individual.genotype := by
    rw [hmap]
    exact List.mem_map_of_mem Individual.genotype hb0mem
  obtain ⟨y, hy, hyg⟩ := List.mem_map.mp hgmem
  have hyfit : y.fitness = b0.fitness := by
    have h1 := hall y hy
    rw [hyg, heval] at h1
    exact (Option.some.inj h1).symm
  set sorted := sortPop ops ev (!pr.2.options.minimize) with hsorted
  have hysorted : y ∈ sorted := (sortPop_perm ops ev _).mem_iff.mpr hy
  have hsurv : (select_survivors pr.2 sorted).population = sorted := by
    unfold select_survivors
    rw [show pr.2.options.population_model = PopulationModel.Generational from
      hopts0 ▸ hmodel]
  have hpair : sorted.Pairwise (better_or_equal st.options.minimize) := by
    rw [hsorted, hopts0]
    exact sortPop_pairwise_better ops hlaw ev st.options.minimize
  rw [hsurv] at hbest'
  cases hs : sorted with
  | nil =>
    rw [hs] at hbest'
    simp at hbest'
  | cons hd tl =>
    rw [hs] at hbest'
    simp only [List.head?_cons, Option.some.injEq] at hbest'
    rw [hs] at hpair hysorted
    have hdom : better_or_equal st.options.minimize hd y := by
      rcases List.mem_cons.mp hysorted with hy1 | hy1
      · rw [hy1]
        exact better_or_equal_refl _ _
      · exact (List.pairwise_cons.mp hpair).1 y hy1
    have hfit' : st'.stats.fitness = hd.fitness := by
      rw [hfit, ← hbest']
    unfold better_or_equal at hdom
    rw [hfit', ← hyfit]
    constructor
    · intro hmin
      rw [hmin] at hdom
      simpa using hdom
    · intro hmin
      rw [hmin] at hdom
      simpa using hdom

/-! ## Concrete scenarios

A deterministic RNG stream that always draws `1/2`, a 3-city distance
matrix, and small engine states used to exercise the theorems.  With the
matrix `dObs`, the tour `[0,1,2]` has fitness `5` and `[0,2,1]` has
fitness `3`. -/

def halfSeq : ℕ → ℚ := fun _ => 1 / 2

def rng05 : Rng := ⟨halfSeq, 0⟩

theorem u_half (n : ℕ) : Rng.u ⟨halfSeq, n⟩ = 1 / 2 := by
  norm_num [Rng.u, halfSeq, Int.fract]

theorem bump_half (n : ℕ) : Rng.bump ⟨halfSeq, n⟩ = ⟨halfSeq, n + 1⟩ := rfl

def dObs : List ℚ := [0, 1, 1, 2, 0, 1, 1, 2, 0]

def gA : TravelingSalesman := ⟨[0, 1, 2], some dObs⟩

def gB : TravelingSalesman := ⟨[0, 2, 1], some dObs⟩

def iA : Individual TravelingSalesman := ⟨5, 0, gA⟩

def iB : Individual TravelingSalesman := ⟨3, 0, gB⟩

/-- A run configuration: roulette-wheel, Generational, elitism on,
maximising, mutation and crossover rates `0`. -/
def baseOpts : Options :=
  { population := 2, max_generations := 5, target_fitness := 100,
    mutation_rate := 0, crossover_rate := 0, no_elitism := false,
    minimize := false, parent_selection := ParentSelection.RouletteWheel,
    survivor_selection := SurvivorSelection.FitnessBased,
    population_model := PopulationModel.Generational, problem_size := 3 }

def statsInit : EvolutionStats := ⟨0, 5, 0, 0, 0, 0, 0⟩

/-- SteadyState, elitism on, population `[fitness 5, fitness 3]`. -/
def stSS : StandardPopulation TravelingSalesman :=
  ⟨{ baseOpts with population_model := PopulationModel.SteadyState }, rng05, statsInit, [iA, iB]⟩

/-- Generational, elitism on, population size 1. -/
def stGen1 : StandardPopulation TravelingSalesman :=
  ⟨{ baseOpts with population := 1 }, rng05, statsInit, [iA]⟩

/-- Like `stGen1` with a 2-generation budget and target fitness `4`. -/
def stT : StandardPopulation TravelingSalesman :=
  ⟨{ baseOpts with population := 1, max_generations := 2, target_fitness := 4 },
   rng05, statsInit, [iA]⟩

/-- Like `stGen1` with mutation rate `1.0`. -/
def stM1 : StandardPopulation TravelingSalesman :=
  ⟨{ baseOpts with population := 1, mutation_rate := 1 }, rng05, statsInit, [iA]⟩

/-- Mutation rate `1.0` under the unimplemented TournamentSelection
parent-selection placeholder. -/
def stTourn : StandardPopulation TravelingSalesman :=
  ⟨{ baseOpts with population := 1, mutation_rate := 1, parent_selection := ParentSelection.TournamentSelection },
   rng05, statsInit, [iA]⟩

/-- An engine state whose population is unsorted (worse individual first). -/
def stU : StandardPopulation TravelingSalesman := ⟨baseOpts, rng05, statsInit, [iB, iA]⟩

/-- A zero-size run configuration. -/
def opts0 : Options := { baseOpts with population := 0 }

theorem fitness_gA : TravelingSalesman.fitness gA = some 5 := by
  norm_num [TravelingSalesman.fitness, gA, dObs, List.foldlM]

theorem fitness_gB : TravelingSalesman.fitness gB = some 3 := by
  norm_num [TravelingSalesman.fitness, gB, dObs, List.foldlM]

/-! ## Concrete evaluations of the engine

Each lemma pins the observable outcome of running an engine function on
one of the concrete states above, fully evaluating the embedded code. -/

set_option maxHeartbeats 2000000 in
set_option maxRecDepth 8000 in
theorem eval_nextGen_stSS :
    ((nextGen tspOps stSS).map fun s => s.stats.fitness) = some 3 := by
  norm_num [nextGen, select_parents, selectParentsLoop, roulette_wheel_select,
    rouletteAccum, genRangeFloat, genRangeNat, genRangeNatLH, genBool, mutatePop,
    evaluatePop, Individual.evaluateI, Individual.crossoverI, sortPop,
    select_survivors, tspOps, TravelingSalesman.crossover, TravelingSalesman.fitness,
    copyRange, vecSet, u_half, bump_half, rng05, stSS, baseOpts, statsInit, iA, iB,
    gA, gB, dObs, List.mergeSort, List.foldlM, individualCmp, cmpLin, cmpListNat,
    Ordering.then, Ordering.isLE]

set_option maxHeartbeats 2000000 in
set_option maxRecDepth 8000 in
theorem eval_nextGen_stGen1 :
    ((nextGen tspOps stGen1).map fun s => (s.stats.fitness, s.stats.mutations))
      = some (5, 0) := by
  norm_num [nextGen, select_parents, selectParentsLoop, roulette_wheel_select,
    rouletteAccum, genRangeFloat, genRangeNat, genRangeNatLH, genBool, mutatePop,
    evaluatePop, Individual.evaluateI, Individual.crossoverI, sortPop,
    select_survivors, tspOps, TravelingSalesman.crossover, TravelingSalesman.fitness,
    copyRange, vecSet, u_half, bump_half, rng05, stGen1, baseOpts, statsInit, iA,
    gA, dObs, List.mergeSort, List.foldlM, individualCmp, cmpLin, cmpListNat,
    Ordering.then, Ordering.isLE]

set_option maxHeartbeats 2000000 in
set_option maxRecDepth 8000 in
theorem eval_nextGen_stT :
    ((nextGen tspOps stT).map fun s => s.stats.fitness) = some 5 := by
  norm_num [nextGen, select_parents, selectParentsLoop, roulette_wheel_select,
    rouletteAccum, genRangeFloat, genRangeNat, genRangeNatLH, genBool, mutatePop,
    evaluatePop, Individual.evaluateI, Individual.crossoverI, sortPop,
    select_survivors, tspOps, TravelingSalesman.crossover, TravelingSalesman.fitness,
    copyRange, vecSet, u_half, bump_half, rng05, stT, baseOpts, statsInit, iA,
    gA, dObs, List.mergeSort, List.foldlM, individualCmp, cmpLin, cmpListNat,
    Ordering.then, Ordering.isLE]

theorem iA_fitness : iA.fitness = 5 := rfl

theorem iA_generation : iA.generation = 0 := rfl

theorem iA_genotype : iA.genotype = gA := rfl

theorem tspOps_fitnessG : tspOps.fitnessG = TravelingSalesman.fitness := rfl

set_option maxHeartbeats 1000000 in
set_option maxRecDepth 4000 in
theorem eval_mutate_gA_idx4 : TravelingSalesman.mutate 9 gA ⟨halfSeq, 4⟩
    = some (⟨[2, 0, 1], some dObs⟩, ⟨halfSeq, 8⟩) := by
  norm_num [TravelingSalesman.mutate, drawNeLoop, shift_elements, shiftStep,
    swapIdx, genRangeFloat, genRangeNat, genRangeNatLH, genBool, u_half,
    bump_half, gA, dObs, List.foldlM, List.range']

set_option maxHeartbeats 1000000 in
set_option maxRecDepth 4000 in
theorem eval_selectLoop_stM1 : selectParentsLoop tspOps [iA] 5 false 0 1 ⟨halfSeq, 0⟩
    = some ([⟨0, 1, gA⟩], 0, ⟨halfSeq, 3⟩) := by
  norm_num [selectParentsLoop, roulette_wheel_select, rouletteAccum,
    genRangeFloat, genRangeNat, genRangeNatLH, genBool, Individual.crossoverI,
    tspOps, TravelingSalesman.crossover, copyRange, vecSet, u_half, bump_half,
    iA, gA, dObs, List.foldlM, List.range']

set_option maxHeartbeats 400000 in
theorem eval_mutatePop_stM1 : mutatePop tspOps 1 [⟨0, 1, gA⟩] ⟨halfSeq, 3⟩
    = some ([⟨0, 1, ⟨[2, 0, 1], some dObs⟩⟩], 1, ⟨halfSeq, 8⟩) := by
  have h1 : genBool 1 ⟨halfSeq, 3⟩ = some (true, ⟨halfSeq, 4⟩) := genBool_one _
  rw [mutatePop, h1]
  simp only [Option.some_bind, if_pos]
  rw [show tspOps.mutateG gA ⟨halfSeq, 4⟩
      = some (⟨[2, 0, 1], some dObs⟩, ⟨halfSeq, 8⟩) from eval_mutate_gA_idx4]
  simp only [Option.some_bind]
  rw [mutatePop]
  simp only [Option.some_bind, Option.some.injEq]
  norm_num

set_option maxHeartbeats 2000000 in
set_option maxRecDepth 6000 in
theorem eval_nextGen_stM1 :
    ((nextGen tspOps stM1).map fun s => s.stats.mutations) = some 1 := by
  norm_num [nextGen, select_parents, eval_selectLoop_stM1, eval_mutatePop_stM1,
    evaluatePop, Individual.evaluateI, tspOps_fitnessG, fitness_gA, iA_fitness,
    iA_generation, iA_genotype, sortPop, select_survivors, u_half, bump_half,
    rng05, stM1, baseOpts, statsInit, List.mergeSort, List.foldlM, individualCmp,
    cmpLin, cmpListNat, Ordering.then, Ordering.isLE]

set_option maxHeartbeats 1000000 in
set_option maxRecDepth 4000 in
theorem eval_nextGen_stTourn :
    ((nextGen tspOps stTourn).map fun s => s.stats.mutations) = some 0 := by
  norm_num [nextGen, select_parents, selectParentsLoop, roulette_wheel_select,
    rouletteAccum, genRangeFloat, genRangeNat, genRangeNatLH, genBool, mutatePop,
    evaluatePop, Individual.evaluateI, Individual.crossoverI, sortPop,
    select_survivors, tspOps, TravelingSalesman.crossover, TravelingSalesman.fitness,
    copyRange, vecSet, u_half, bump_half, rng05, stTourn, baseOpts, statsInit, iA,
    gA, dObs, List.mergeSort, List.foldlM, individualCmp, cmpLin, cmpListNat,
    Ordering.then, Ordering.isLE]

set_option maxHeartbeats 1000000 in
set_option maxRecDepth 4000 in
theorem eval_mutate_gA :
    ((TravelingSalesman.mutate 5 gA rng05).map fun p => p.1.genome) = some [2, 0, 1] := by
  norm_num [TravelingSalesman.mutate, drawNeLoop, shift_elements, shiftStep, swapIdx,
    genRangeFloat, genRangeNat, genRangeNatLH, genBool, u_half, bump_half, rng05,
    gA, dObs, List.foldlM, List.range']

set_option maxHeartbeats 1000000 in
set_option maxRecDepth 4000 in
theorem eval_evolveInit_stU :
    ((evolveInit tspOps stU).map fun s => s.population.map Individual.fitness)
      = some [5, 3] := by
  norm_num [evolveInit, evaluatePop, Individual.evaluateI, sortPop, tspOps,
    TravelingSalesman.fitness, u_half, bump_half, rng05, stU, baseOpts, statsInit,
    iA, iB, gA, gB, dObs, List.mergeSort, List.foldlM, individualCmp, cmpLin,
    cmpListNat, Ordering.then, Ordering.isLE]

set_option maxHeartbeats 1000000 in
set_option maxRecDepth 4000 in
theorem eval_new_baseOpts :
    ((StandardPopulation.new tspOps baseOpts rng05).map fun st =>
        (st.population.length, st.population.map Individual.fitness,
         st.population.map Individual.generation))
      = some (2, [0, 0], [0, 0]) := by
  norm_num [StandardPopulation.new, newPopLoop, tspOps, create_random_path, shuffle,
    shuffleStep, swapIdx, genRangeNat, genRangeNatLH, u_half, bump_half, rng05,
    baseOpts, List.foldlM, List.range']

set_option maxHeartbeats 1000000 in
set_option maxRecDepth 4000 in
theorem eval_crossoverI :
    ((Individual.crossoverI tspOps iA iB rng05).map fun p => (p.1.generation, p.1.fitness))
      = some (1, 0) := by
  norm_num [Individual.crossoverI, tspOps, TravelingSalesman.crossover, genRangeNat,
    genRangeNatLH, copyRange, vecSet, u_half, bump_half, rng05, iA, iB, gA, gB,
    List.foldlM, List.range']

/-- SteadyState with the AgeBased survivor strategy. -/
def stAge : StandardPopulation TravelingSalesman :=
  ⟨{ baseOpts with population_model := PopulationModel.SteadyState, survivor_selection := SurvivorSelection.AgeBased },
   rng05, statsInit, [iA, iB]⟩

/-- Options are invariant across one generation step. -/
theorem nextGen_options (ops : GenoOps G) (st st' : StandardPopulation G)
    (h : nextGen ops st = some st') : st'.options = st.options := by
  obtain ⟨pr, ev, best, hsel, hev, hbest, hfit, hmut, hpop', hopts⟩ := nextGen_spec ops st st' h
  obtain ⟨hopts1, lr, mr, _, _, _⟩ :=
    select_parents_mutations ops (bumpStats st) (totalFitness st) pr.1 pr.2
      (show _ = some (pr.1, pr.2) from hsel)
  exact hopts.trans hopts1

/-! ## Claim C1 -/

/-- C1 (amended): in `roulette_wheel_select` the degenerate total
`s <= 0` is not recovered: the `gen_range(0.0..s)` draw is over an empty
range and fails, so selection fails rather than returning index 0.  The
fall-through index 0 is reached only when a threshold was successfully
drawn (`0 < s`) over an empty population. -/
theorem C1_roulette_degenerate (pop : List (Individual G)) (s : ℚ)
    (minimize : Bool) (r : Rng) :
    (s ≤ 0 → roulette_wheel_select pop s minimize r = none) ∧
    (0 < s → roulette_wheel_select ([] : List (Individual G)) s minimize r
      = some (0, r.bump)) := by
  constructor
  · intro hs
    unfold roulette_wheel_select genRangeFloat
    rw [if_neg (not_lt.mpr hs)]
    rfl
  · intro hs
    unfold roulette_wheel_select genRangeFloat
    rw [if_pos hs]
    simp [rouletteAccum]

/-- C1 counterexample: with total transformed fitness `0` (e.g. the empty
population, whose total is `0`) selection fails instead of returning
index 0 as the claim states. -/
theorem C1_counterexample :
    roulette_wheel_select ([] : List (Individual TravelingSalesman)) 0 false rng05
      = none := by
  norm_num [roulette_wheel_select, genRangeFloat]

/-- C1 witness. -/
theorem C1_witness :
    roulette_wheel_select [iA, iB] 0 false rng05 = none ∧
    roulette_wheel_select ([] : List (Individual TravelingSalesman)) 8 false rng05
      = some (0, rng05.bump) :=
  ⟨(C1_roulette_degenerate [iA, iB] 0 false rng05).1 (le_refl 0),
   (C1_roulette_degenerate ([] : List (Individual TravelingSalesman)) 8 false rng05).2
     (by norm_num)⟩

/-! ## Claim C2 -/

theorem newPopLoop_spec (ops : GenoOps G) (ps : ℕ) :
    ∀ (n : ℕ) (r : Rng) (p : List (Individual G) × Rng),
      newPopLoop ops ps n r = some p →
      p.1.length = n ∧ ∀ i ∈ p.1, i.fitness = 0 ∧ i.generation = 0
  | 0, r, p, h => by
    simp only [newPopLoop, Option.some.injEq] at h
    subst h
    simp
  | n + 1, r, p, h => by
    rw [newPopLoop] at h
    rcases Option.bind_eq_some.mp h with ⟨gr, _, h⟩
    rcases Option.bind_eq_some.mp h with ⟨pr, hp, h⟩
    obtain ⟨hlen, hall⟩ := newPopLoop_spec ops ps n gr.2 pr hp
    simp only [Option.some.injEq] at h
    subst h
    constructor
    · simp [hlen]
    · intro i hi
      rcases List.mem_cons.mp hi with hi | hi
      · subst hi
        exact ⟨rfl, rfl⟩
      · exact hall i hi

/-- C2 (amended): `StandardPopulation::new` performs no validation.  With
`population_size == 0` it succeeds with an empty population (no
`ConfigurationError` exists anywhere in the code); for every
`population_size` it builds exactly that many individuals, each with
fitness `0.0` and generation `0`. -/
theorem C2_new_behavior (ops : GenoOps G) (options : Options) (r : Rng) :
    (options.population = 0 →
      StandardPopulation.new ops options r = some
        { options := options, rng := r,
          stats := { generation := 0, max_generations := options.max_generations,
                     fitness := 0, mutations := 0, total_mutations := 0,
                     crossovers := 0, total_crossovers := 0 },
          population := [] }) ∧
    (∀ st, StandardPopulation.new ops options r = some st →
      st.population.length = options.population ∧
      ∀ i ∈ st.population, i.fitness = 0 ∧ i.generation = 0) := by
  constructor
  · intro h0
    unfold StandardPopulation.new
    rw [h0]
    rfl
  · intro st hst
    unfold StandardPopulation.new at hst
    rcases Option.map_eq_some'.mp hst with ⟨pr, hp, h⟩
    obtain ⟨hlen, hall⟩ := newPopLoop_spec ops options.problem_size options.population r pr hp
    constructor
    · rw [← h]
      exact hlen
    · rw [← h]
      exact hall

/-- C2 counterexample: constructing an engine with `population == 0`
succeeds (returns an engine) instead of failing with a
`ConfigurationError`. -/
theorem C2_counterexample :
    (StandardPopulation.new tspOps opts0 rng05).isSome = true := by
  norm_num [StandardPopulation.new, newPopLoop, opts0, baseOpts]

/-- C2 witness. -/
theorem C2_witness :
    ((StandardPopulation.new tspOps opts0 rng05).map fun st => st.population.length)
      = some 0 ∧
    ((StandardPopulation.new tspOps baseOpts rng05).map fun st => st.population.length)
      = some 2 := by
  constructor
  · have h := (C2_new_behavior tspOps opts0 rng05).1 rfl
    rw [h]
    rfl
  · have pin := eval_new_baseOpts
    match hEq : StandardPopulation.new tspOps baseOpts rng05 with
    | none =>
      rw [hEq] at pin
      simp at pin
    | some st =>
      obtain ⟨hlen, _⟩ := (C2_new_behavior tspOps baseOpts rng05).2 st hEq
      simp only [Option.map_some', Option.some.injEq, hlen]
      rfl

/-! ## Claim C3 -/

/-- C3 counterexample: with elitism enabled, maximizing, under the
SteadyState population model, the generation step discards the new pool
but has already removed the best individual (fitness 5) from the old
population, so the best fitness regresses from 5 to 3. -/
theorem C3_counterexample :
    stSS.options.no_elitism = false ∧
    stSS.options.minimize = false ∧
    stSS.population.map Individual.fitness = [5, 3] ∧
    ((nextGen tspOps stSS).map fun s => s.stats.fitness) = some 3 ∧
    ¬ ((5 : ℚ) ≤ 3) :=
  ⟨rfl, rfl, rfl, eval_nextGen_stSS, by norm_num⟩

/-- C3 witness. -/
theorem C3_witness :
    ((nextGen tspOps stGen1).map fun s => s.stats.fitness) = some 5 ∧
    ((nextGen tspOps stGen1).map fun s => decide ((5 : ℚ) ≤ s.stats.fitness))
      = some true := by
  have pin := eval_nextGen_stGen1
  constructor
  · match hEq : nextGen tspOps stGen1 with
    | none =>
      rw [hEq] at pin
      simp at pin
    | some s =>
      rw [hEq] at pin
      simp only [Option.map_some', Option.some.injEq, Prod.mk.injEq] at pin
      simp [pin.1]
  · match hEq : nextGen tspOps stGen1 with
    | none =>
      rw [hEq] at pin
      simp at pin
    | some s =>
      have hth := nextGen_elitism_no_regress tspOps tspOps_lawful stGen1 s iA []
        rfl rfl rfl fitness_gA
        (by
          intro i hi
          simp only [stGen1, List.mem_singleton] at hi
          subst hi
          exact better_or_equal_refl _ _)
        hEq
      simp only [Option.map_some', Option.some.injEq]
      exact decide_eq_true (hth.2 rfl)

/-! ## Claim C4 -/

/-- C4: `NQueens::crossover` writes `genome[i]` into the zero-length
vector produced by `Vec::with_capacity`, so it panics for every pair of
parents (here: 3-queens parents, crossover index 1); the same claim holds
for `TravelingSalesman::crossover`, which does produce the
prefix-from-self, suffix-from-other offspring. -/
theorem C4_crossover_eval :
    NQueens.crossover ⟨[0, 1, 2], 3, 3⟩ ⟨[2, 1, 0], 3, 3⟩ rng05 = none ∧
    ((TravelingSalesman.crossover gA gB rng05).map fun p => p.1.genome)
      = some (List.take 1 gA.genome ++ List.drop 1 gB.genome) := by
  constructor
  · norm_num [NQueens.crossover, genRangeNat, genRangeNatLH, copyRange, vecSet,
      u_half, bump_half, rng05, List.foldlM, List.range']
  · norm_num [TravelingSalesman.crossover, genRangeNat, genRangeNatLH, copyRange,
      vecSet, u_half, bump_half, rng05, gA, gB, List.foldlM, List.range']

/-! ## Claim C5 -/

/-- C5: after the Evaluate phase (evaluate, then sort with the
direction-aware comparator) every adjacent pair of the sorted pool
satisfies better-or-equal for the configured direction: descending
fitness when maximizing, ascending when minimizing. -/
theorem C5_evaluate_phase_sorted (ops : GenoOps G) (hlaw : LawfulCmpG ops)
    (minimize : Bool) (pop ev : List (Individual G))
    (h : evaluatePop ops pop = some ev) :
    ∀ (i : ℕ) (h1 : i + 1 < (sortPop ops ev (!minimize)).length),
      better_or_equal minimize
        ((sortPop ops ev (!minimize)).get ⟨i, Nat.lt_of_succ_lt h1⟩)
        ((sortPop ops ev (!minimize)).get ⟨i + 1, h1⟩) := by
  intro i h1
  have hp := sortPop_pairwise_better ops hlaw ev minimize
  exact List.pairwise_iff_get.mp hp ⟨i, Nat.lt_of_succ_lt h1⟩ ⟨i + 1, h1⟩
    (by simp)

/-- C5 witness. -/
theorem C5_witness :
    better_or_equal false
      ((sortPop tspOps [⟨3, 0, gB⟩, ⟨5, 0, gA⟩] true).getD 0 iA)
      ((sortPop tspOps [⟨3, 0, gB⟩, ⟨5, 0, gA⟩] true).getD 1 iA) := by
  have hev : evaluatePop tspOps [iB, iA] = some [⟨3, 0, gB⟩, ⟨5, 0, gA⟩] := by
    norm_num [evaluatePop, Individual.evaluateI, tspOps, TravelingSalesman.fitness,
      iA, iB, gA, gB, dObs, List.foldlM]
  have hlen : ((0 : ℕ) + 1) < (sortPop tspOps [⟨3, 0, gB⟩, ⟨5, 0, gA⟩] true).length := by
    simp [sortPop]
  have hth := C5_evaluate_phase_sorted tspOps tspOps_lawful false [iB, iA]
    [⟨3, 0, gB⟩, ⟨5, 0, gA⟩] hev 0 hlen
  rw [List.getD_eq_get _ iA (Nat.lt_of_succ_lt hlen),
      List.getD_eq_get _ iA hlen]
  exact hth

/-! ## Claim C6 -/

/-- C6: the bounded loop executes at most `max_generations` iterations
and exits early exactly when best fitness reaches the target; the
unbounded loop (`max_generations == 0`) returns only when, and as soon
as, the target condition holds. -/
theorem C6_termination (ops : GenoOps G) (k fuel : ℕ)
    (st stb stu : StandardPopulation G) (nb nu : ℕ) :
    (evolveLoop ops k st = some (stb, nb) →
      nb ≤ k ∧ iterNext ops nb st = some stb ∧
      (nb < k → targetReached stb.options stb.stats = true) ∧
      ∀ m stm, 0 < m → m < nb → iterNext ops m st = some stm →
        targetReached stm.options stm.stats = false) ∧
    (evolveUnbounded ops fuel st = some (stu, nu) →
      iterNext ops nu st = some stu ∧
      targetReached stu.options stu.stats = true ∧
      ∀ m stm, 0 < m → m < nu → iterNext ops m st = some stm →
        targetReached stm.options stm.stats = false) :=
  ⟨fun h => evolveLoop_spec ops k st stb nb h,
   fun h => evolveUnbounded_spec ops fuel st stu nu h⟩

/-- C6 witness. -/
theorem C6_witness :
    ((evolveLoop tspOps 2 stT).map Prod.snd) = some 1 ∧
    ((evolveLoop tspOps 2 stT).map fun p =>
        decide (p.2 ≤ 2) && targetReached p.1.options p.1.stats) = some true := by
  have pin := eval_nextGen_stT
  match hEq : nextGen tspOps stT with
  | none =>
    rw [hEq] at pin
    simp at pin
  | some st1 =>
    have hfit : st1.stats.fitness = 5 := by
      rw [hEq] at pin
      simpa using pin
    have hopt : st1.options = stT.options := nextGen_options tspOps stT st1 hEq
    have htr : targetReached st1.options st1.stats = true := by
      norm_num [targetReached, hopt, hfit, stT, baseOpts]
    have hrun : evolveLoop tspOps 2 stT = some (st1, 1) := by
      show evolveLoop tspOps (1 + 1) stT = some (st1, 1)
      rw [evolveLoop, hEq]
      simp [htr]
    obtain ⟨hle, hit, htgt, hpre⟩ := (C6_termination tspOps 2 0 stT st1 st1 1 1).1 hrun
    rw [hrun]
    constructor
    · rfl
    · simp [htgt (by omega)]

/-! ## Claim C7 -/

/-- C7 counterexample: under the TournamentSelection placeholder the
candidate pool is empty, so mutation rate `1.0` yields a mutation count
of `0`, not the population size `1`. -/
theorem C7_counterexample :
    stTourn.options.mutation_rate = 1 ∧
    stTourn.options.population = 1 ∧
    ((nextGen tspOps stTourn).map fun s => s.stats.mutations) = some 0 ∧
    (0 : ℤ) ≠ 1 :=
  ⟨rfl, rfl, eval_nextGen_stTourn, by norm_num⟩

/-- C7 witness. -/
theorem C7_witness :
    ((nextGen tspOps stGen1).map fun s => s.stats.mutations) = some 0 ∧
    ((nextGen tspOps stM1).map fun s => s.stats.mutations) = some 1 := by
  constructor
  · have pin := eval_nextGen_stGen1
    match hEq : nextGen tspOps stGen1 with
    | none =>
      rw [hEq] at pin
      simp at pin
    | some s =>
      have h0 : s.stats.mutations = 0 :=
        (nextGen_mutation_extremes tspOps stGen1 s hEq).1 rfl
      simp [h0]
  · have pin := eval_nextGen_stM1
    match hEq : nextGen tspOps stM1 with
    | none =>
      rw [hEq] at pin
      simp at pin
    | some s =>
      have h1 : s.stats.mutations = (stM1.options.population : ℤ) :=
        (nextGen_mutation_extremes tspOps stM1 s hEq).2 rfl rfl
      norm_num [h1, stM1, baseOpts]

/-! ## Claim C8 -/

/-- C8 (amended): `Individual::crossover` delegates to the genotype
crossover and resets fitness to the `0.0` sentinel, but sets the
offspring generation to `self.generation + 1` — there is no
`generation_tag` parameter in its definition. -/
theorem C8_crossover_behavior (ops : GenoOps G) (a b : Individual G) (r : Rng)
    (res : Individual G × Rng) (h : Individual.crossoverI ops a b r = some res) :
    res.1.generation = a.generation + 1 ∧ res.1.fitness = 0 ∧
    ops.crossoverG a.genotype b.genotype r = some (res.1.genotype, res.2) := by
  unfold Individual.crossoverI at h
  rcases Option.map_eq_some'.mp h with ⟨gr, hg, h⟩
  refine ⟨?_, ?_, ?_⟩
  · rw [← h]
  · rw [← h]
  · rw [← h]
    exact hg

/-- C8 counterexample: crossing parents whose generation is 7 yields an
offspring stamped `8 = self.generation + 1`, not the caller-supplied tag
(the engine's call site passes `stats.generation`, here `0`). -/
theorem C8_counterexample :
    ((Individual.crossoverI tspOps ⟨5, 7, gA⟩ ⟨5, 7, gA⟩ rng05).map
        fun p => p.1.generation) = some 8 ∧ (8 : ℤ) ≠ 0 := by
  constructor
  · norm_num [Individual.crossoverI, tspOps, TravelingSalesman.crossover,
      genRangeNat, genRangeNatLH, copyRange, vecSet, u_half, bump_half, rng05,
      gA, List.foldlM, List.range']
  · norm_num

/-- C8 witness. -/
theorem C8_witness :
    ((Individual.crossoverI tspOps iA iB rng05).map
        fun p => (p.1.generation, p.1.fitness)) = some (1, 0) := by
  have pin := eval_crossoverI
  match hEq : Individual.crossoverI tspOps iA iB rng05 with
  | none =>
    rw [hEq] at pin
    simp at pin
  | some res =>
    obtain ⟨h1, h2, _⟩ := C8_crossover_behavior tspOps iA iB rng05 res hEq
    simp [h1, h2, iA]

/-! ## Claim C9 -/

/-- C9: survivor selection replaces the whole population with the new
pool under Generational, and silently leaves the state untouched
(discarding the pool) under SteadyState, for both survivor strategies. -/
theorem C9_survivor_selection (st : StandardPopulation G) (ng : List (Individual G)) :
    (st.options.population_model = PopulationModel.Generational →
      select_survivors st ng = { st with population := ng }) ∧
    (st.options.population_model = PopulationModel.SteadyState →
      select_survivors st ng = st) := by
  constructor
  · intro h
    unfold select_survivors
    rw [h]
  · intro h
    unfold select_survivors
    rw [h]
    cases st.options.survivor_selection <;> rfl

/-- C9 witness. -/
theorem C9_witness :
    select_survivors stGen1 [iB] = { stGen1 with population := [iB] } ∧
    select_survivors stSS [iA] = stSS ∧
    select_survivors stAge [iA] = stAge :=
  ⟨(C9_survivor_selection stGen1 [iB]).1 rfl,
   (C9_survivor_selection stSS [iA]).2 rfl,
   (C9_survivor_selection stAge [iA]).2 rfl⟩

/-! ## Claim C10 -/

/-- C10: every branch of `TravelingSalesman::mutate` preserves the
genome being a permutation of `0..length`: the swap branch and
`shift_elements` only exchange existing positions, and the
fresh-random-path branch rebuilds a permutation of `0..length`. -/
theorem C10_mutate_preserves_permutation (fuel : ℕ) (g g' : TravelingSalesman)
    (r r' : Rng) (hperm : List.Perm g.genome (List.range g.genome.length))
    (h : TravelingSalesman.mutate fuel g r = some (g', r')) :
    List.Perm g'.genome (List.range g.genome.length) :=
  tsp_mutate_perm fuel g g' r r' hperm h

/-- C10 witness. -/
theorem C10_witness :
    ((TravelingSalesman.mutate 5 gA rng05).map fun p => p.1.genome) = some [2, 0, 1] ∧
    ((TravelingSalesman.mutate 5 gA rng05).map fun p =>
        decide (List.Perm p.1.genome (List.range 3))) = some true := by
  have pin := eval_mutate_gA
  refine ⟨pin, ?_⟩
  match hEq : TravelingSalesman.mutate 5 gA rng05 with
  | none =>
    rw [hEq] at pin
    simp at pin
  | some p =>
    have hperm : List.Perm gA.genome (List.range gA.genome.length) :=
      List.Perm.refl _
    have hp2 := C10_mutate_preserves_permutation 5 gA p.1 rng05 p.2 hperm hEq
    simp only [Option.map_some', Option.some.injEq]
    exact decide_eq_true hp2

end RustGA
